import Mathlib

/-
Verification of the `build!` / `import!` proc-macro crate of winrt-rs
(crates/macros/src/lib.rs).

The development shallowly embeds, in order:
  * the casing helpers (`namespace_literal_to_rough_namespace`,
    `check_for_module_instead_of_type`);
  * the selection-DSL parser (`use_tree_to_namespace_types` over `syn::UseTree`);
  * the NuGet dependency locator (`Dependencies::parse`);
  * the limit-insertion / pruning pipeline (`ImportMacro::to_tokens_string`);
  * the generated build-script body emitted by `build` (file write + rustfmt).

Rust machine-level details are modelled as follows: `String` is Lean `String`
(a list of `Char`); Unicode case conversion (`char::to_lowercase`) is modelled
by its one-character ASCII fragment (`A`..`Z` map to `a`..`z`), which is what
the DSL's identifiers use; `BTreeSet` is modelled as ordered duplicate-free
insertion into a sorted list; filesystem and process effects are modelled by
explicit data (directory trees, formatter outcomes, event traces).  Functions
of the collaborating `winrt_gen` crate that are not part of this source file
are modelled from the spec and carry a doc comment saying so.
-/

namespace WinrtMacros

/-! ## Definitions -/

/-- Rust `char::to_lowercase`, modelled by its one-character ASCII fragment
(`A`..`Z` map to `a`..`z`, every other character is unchanged), which is what
core `Char.toLower` computes. -/
def rustCharToLower (c : Char) : Char := Char.toLower c

/-- Rust `str::to_lowercase`: lowercase every character of the string. -/
def rustStrToLower (s : String) : String := String.mk (s.data.map rustCharToLower)

/-- `namespace_literal_to_rough_namespace` (lib.rs 284-292): walk the
characters of the namespace literal, drop every `"` and `_`, and push the
lowercasing of every other character. -/
def namespace_literal_to_rough_namespace (ns : String) : String :=
  ns.data.foldl
    (fun result c =>
      if c != '"' && c != '_' then result.push (rustCharToLower c) else result)
    ""

/-- The character filter of the rough-namespace computation, as a predicate. -/
def roughKeep (c : Char) : Bool := c != '"' && c != '_'

/-- `syn::UseTree`, the `use`-path syntax that each `types` declaration is
parsed from.  Each node carries its source span (modelled as a number). -/
inductive UseTree where
  | path (span : Nat) (ident : String) (tree : UseTree)
  | glob (span : Nat)
  | group (span : Nat) (items : List UseTree)
  | name (span : Nat) (ident : String)
  | rename (span : Nat) (ident : String) (asIdent : String)
deriving Repr

/-- `syn::spanned::Spanned`: the span of a `UseTree` node. -/
def UseTree.span : UseTree → Nat
  | .path s _ _ => s
  | .glob s => s
  | .group s _ => s
  | .name s _ => s
  | .rename s _ _ => s

/-- `syn::Error`: a parse error carrying the span it is anchored to and its
message. -/
structure SynError where
  span : Nat
  message : String
deriving DecidableEq, Repr

/-- `winrt_gen::TypeLimit` as used by this source file (lib.rs 131, 321, 343,
352): either every type of a namespace (`TypeLimit::All`) or an explicit list
of type names (`TypeLimit::Some(vec)`). -/
inductive TypeLimit where
  | all
  | some (types : List String)
deriving DecidableEq, Repr

/-- `winrt_gen::NamespaceTypes` as used by this source file (lib.rs 129, 319,
341, 350): a namespace together with a type limit. -/
structure NamespaceTypes where
  «namespace» : String
  limit : TypeLimit
deriving DecidableEq, Repr

/-- `check_for_module_instead_of_type` (lib.rs 296-305): reject an identifier
that equals its own lowercasing. -/
def check_for_module_instead_of_type (name : String) (span : Nat) :
    Except SynError Unit :=
  let error : Except SynError Unit := Except.error
    { span := span
      message := "Expected `*` or type name, but found what appears to be a module" }
  if rustStrToLower name == name then error else Except.ok ()

/-- One iteration of the `UseTree::Group` member loop of `recurse`
(lib.rs 328-339): a plain name is checked and kept, renames and nested paths
are rejected. -/
def parseGroupItem : UseTree → Except SynError String
  | .name sp ident => do
      check_for_module_instead_of_type ident sp
      Except.ok ident
  | .rename sp _ _ =>
      Except.error { span := sp, message := "Renaming syntax is not supported" }
  | t => Except.error { span := t.span, message := "Nested paths not allowed" }

/-- `recurse` inside `use_tree_to_namespace_types` (lib.rs 295-357): walk the
path accumulating dotted segments in `current`, then dispatch on the
terminator. -/
def recurse : UseTree → String → Except SynError NamespaceTypes
  | .path _ ident t, current =>
      recurse t ((if current.isEmpty then current else current ++ ".") ++ ident)
  | .glob _, current =>
      Except.ok
        { «namespace» := namespace_literal_to_rough_namespace current
          limit := TypeLimit.all }
  | .group _ items, current => do
      let ns := namespace_literal_to_rough_namespace current
      let types ← items.mapM parseGroupItem
      Except.ok { «namespace» := ns, limit := TypeLimit.some types }
  | .name sp ident, current => do
      let ns := namespace_literal_to_rough_namespace current
      check_for_module_instead_of_type ident sp
      Except.ok { «namespace» := ns, limit := TypeLimit.some [ident] }
  | .rename sp _ _, _ =>
      Except.error { span := sp, message := "Renaming syntax is not supported" }

/-- `use_tree_to_namespace_types` (lib.rs 294, 359): run `recurse` with an
empty accumulator. -/
def use_tree_to_namespace_types (tree : UseTree) : Except SynError NamespaceTypes :=
  recurse tree ""

/-- A nested `UseTree::Path` chain over the given `(span, ident)` segments,
ending in the given terminator. -/
def mkUseTreePath (segments : List (Nat × String)) (tail : UseTree) : UseTree :=
  match segments with
  | [] => tail
  | (sp, ident) :: rest => UseTree.path sp ident (mkUseTreePath rest tail)

/-- Dotted left-to-right join of path segments. -/
def joinDots : List String → String
  | [] => ""
  | [s] => s
  | s :: rest => s ++ "." ++ joinDots rest

/-- The accumulator step of `recurse` on a `UseTree::Path` node. -/
def dotAppend (current ident : String) : String :=
  (if current.isEmpty then current else current ++ ".") ++ ident

/-- Rust `str::starts_with`, on the character lists. -/
def strStartsWith (s pre : String) : Bool := pre.data.isPrefixOf s.data

/-- A filesystem entry: a file, or a directory with its entries.  Models what
`std::fs::read_dir` exposes of the NuGet root. -/
inductive FsEntry where
  | file (name : String)
  | dir (name : String) (entries : List FsEntry)
deriving Repr

/-- The file name of an entry (`DirEntry::file_name`). -/
def FsEntry.name : FsEntry → String
  | .file n => n
  | .dir n _ => n

/-- Whether an entry is a directory (`Path::is_dir`). -/
def FsEntry.isDir : FsEntry → Bool
  | .file _ => false
  | .dir _ _ => true

/-- Modelled from the spec: `winrt_gen::dependencies::nuget_root()` is not
part of this source file; it is the well-known NuGet root directory under the
cargo workspace's `target` directory. -/
def nuget_root : String := "target/nuget"

mutual

/-- Modelled from the spec: `winrt_gen::dependencies::expand_paths` is not
part of this source file.  Per §4.1 it expands the located directory
recursively (deterministic traversal), collecting every metadata file found;
the model collects the path of every file under the directory. -/
def expand_paths : FsEntry → String → List String
  | FsEntry.file n, base => [base ++ "/" ++ n]
  | FsEntry.dir n entries, base => expand_paths_list entries (base ++ "/" ++ n)

/-- Recursive expansion of a directory's entries, in order. -/
def expand_paths_list : List FsEntry → String → List String
  | [], _ => []
  | e :: rest, base => expand_paths e base ++ expand_paths_list rest base

end

/-- The subdirectories of the NuGet root whose name starts with the dependency
name: the filter chain of `Dependencies::parse` (lib.rs 204-214). -/
def matchesOf (root : List FsEntry) (name : String) : List FsEntry :=
  root.filter (fun e => e.isDir && strStartsWith e.name name)

/-- The per-dependency body of `Dependencies::parse` (lib.rs 202-225): filter
the NuGet root's entries down to directories whose name starts with the
dependency name; fail if the iterator is empty, fail if it yields a second
match, otherwise expand the single located directory. -/
def resolveDependency (root : List FsEntry) (name : String) :
    Except String (List String) :=
  match matchesOf root name with
  | [] => Except.error ("No directory for dependency '" ++ name ++ "'")
  | [d] => Except.ok (expand_paths d nuget_root)
  | _ :: _ :: _ =>
      Except.error ("multiple nuget package versions found for '" ++ name ++ "'")

/-- Rust `BTreeSet::insert`, modelled as duplicate-free insertion into a list
sorted by `cmp`; when an equal element is already present the set is
unchanged (the existing element is kept). -/
def btreeInsert {α : Type} (cmp : α → α → Ordering) : List α → α → List α
  | [], a => [a]
  | b :: rest, a =>
    match cmp a b with
    | Ordering.lt => a :: b :: rest
    | Ordering.eq => b :: rest
    | Ordering.gt => b :: btreeInsert cmp rest a

/-- `Dependencies::parse` (lib.rs 198-228) over the declared dependency
names: resolve each against the NuGet root and collect the expanded metadata
paths into an ordered set. -/
def Dependencies.parse (root : List FsEntry) (deps : List String) :
    Except String (List String) :=
  deps.foldlM
    (fun acc name => do
      let paths ← resolveDependency root name
      pure (paths.foldl (fun s p => btreeInsert compare s p) acc))
    []

/-- Lexicographic comparison of string lists: Rust's derived `Ord` for
`Vec<String>`. -/
def cmpStrings : List String → List String → Ordering
  | [], [] => Ordering.eq
  | [], _ :: _ => Ordering.lt
  | _ :: _, [] => Ordering.gt
  | x :: xs, y :: ys =>
    match compare x y with
    | Ordering.eq => cmpStrings xs ys
    | o => o

/-- Modelled from the spec: `TypeLimit`'s comparison is derived in `winrt_gen`
and is not part of this source file; Rust's derived `Ord` orders by
constructor (`All` before `Some`) and then by payload. -/
def TypeLimit.cmp : TypeLimit → TypeLimit → Ordering
  | .all, .all => Ordering.eq
  | .all, .some _ => Ordering.lt
  | .some _, .all => Ordering.gt
  | .some xs, .some ys => cmpStrings xs ys

/-- Modelled from the spec: `NamespaceTypes`'s comparison is derived in
`winrt_gen` and is not part of this source file; per §4.2 the parsed set
"de-duplicates by namespace+limit equality, ordered by namespace", which is
Rust's derived lexicographic field order: namespace first, then limit. -/
def NamespaceTypes.cmp (a b : NamespaceTypes) : Ordering :=
  match compare a.«namespace» b.«namespace» with
  | Ordering.eq => TypeLimit.cmp a.limit b.limit
  | o => o

/-- A parsed `types` declaration (lib.rs 234-237): the resolved
`NamespaceTypes` plus the original syntax it came from (the source field is
named `syntax`, a reserved word here). -/
structure TypesDeclaration where
  types : NamespaceTypes
  stx : UseTree

/-- `PartialEq for TypesDeclaration` (lib.rs 248-252): equality delegates to
the `types` field alone, ignoring the stored syntax. -/
def TypesDeclaration.eqb (a b : TypesDeclaration) : Bool :=
  a.types == b.types

/-- `Ord for TypesDeclaration` (lib.rs 243-247): comparison delegates to the
`types` field alone, ignoring the stored syntax. -/
def TypesDeclaration.cmp (a b : TypesDeclaration) : Ordering :=
  NamespaceTypes.cmp a.types b.types

/-- `TypesDeclarations::parse` (lib.rs 265-280): parse each `use`-tree in
turn, convert it, and insert it into the `BTreeSet` of declarations. -/
def TypesDeclarations.parse (trees : List UseTree) :
    Except SynError (List TypesDeclaration) :=
  trees.foldlM
    (fun limits tree => do
      let types ← use_tree_to_namespace_types tree
      pure (btreeInsert TypesDeclaration.cmp limits { types := types, stx := tree }))
    []

/-- Modelled from the spec: `winrt_gen::TypeLimits` is not part of this source
file.  It couples the `TypeReader`'s namespace catalog with the working limit
set; the working set is kept here in insertion order (only membership and the
order of insertions relative to failures matter to the claims below). -/
structure TypeLimits where
  catalog : List String
  limits : List NamespaceTypes
deriving DecidableEq, Repr

/-- `TypeLimits::new(reader)` (lib.rs 117): an empty working set over the
reader's catalog. -/
def TypeLimits.new (catalog : List String) : TypeLimits :=
  { catalog := catalog, limits := [] }

/-- Whether the namespace catalog has a namespace matching the given one,
case-insensitively. -/
def knownNamespace (catalog : List String) (ns : String) : Bool :=
  (catalog.find? (fun c => rustStrToLower c == rustStrToLower ns)).isSome

/-- Modelled from the spec: `TypeLimits::insert` is not part of this source
file.  Per §4.3 insertion "must fail with `UnknownNamespace` (naming the
offending namespace) if the TypeUniverse has no such namespace"; per §4.2 the
rough key is resolved case-insensitively against the catalog, deferring exact
casing to the catalog.  On success the selector joins the working set under
the catalog's canonical casing; on failure the offending namespace is
returned. -/
def TypeLimits.insert (L : TypeLimits) (nt : NamespaceTypes) :
    Except String TypeLimits :=
  match L.catalog.find? (fun c => rustStrToLower c == rustStrToLower nt.«namespace») with
  | Option.some c =>
      Except.ok { L with limits := L.limits ++ [{ nt with «namespace» := c }] }
  | none => Except.error nt.«namespace»

/-- The fixed foundation namespaces (lib.rs 119-124). -/
def foundation_namespaces : List String :=
  ["Windows.Foundation", "Windows.Foundation.Collections",
   "Windows.Foundation.Diagnostics", "Windows.Foundation.Numerics"]

/-- How `to_tokens_string` fails: a `compile_error` token stream built from a
spanned `syn::Error` (lib.rs 140-144), or a Rust panic from the `unwrap` on a
foundation insertion (lib.rs 133). -/
inductive GenError where
  | compileError (err : SynError)
  | panic
deriving DecidableEq, Repr

/-- The foundation-insertion phase of `to_tokens_string` (lib.rs 126-135): if
`foundation` was requested, insert each foundation namespace with limit
`All`, unwrapping (panicking on) any failure.  Both this phase and the user
phase go through the same `TypeLimits.insert`. -/
def foundationPhase (foundation : Bool) (L : TypeLimits) :
    Except GenError TypeLimits :=
  if foundation then
    foundation_namespaces.foldlM
      (fun acc ns =>
        match acc.insert { «namespace» := ns, limit := TypeLimit.all } with
        | Except.ok L2 => Except.ok L2
        | Except.error _ => Except.error GenError.panic)
      L
  else Except.ok L

/-- The user-declaration phase of `to_tokens_string` (lib.rs 137-145): insert
each parsed declaration, turning an insertion failure into a spanned
"not a known namespace" compile error. -/
def userPhase (decls : List TypesDeclaration) (L : TypeLimits) :
    Except GenError TypeLimits :=
  decls.foldlM
    (fun acc decl =>
      match acc.insert decl.types with
      | Except.ok L2 => Except.ok L2
      | Except.error ns =>
          Except.error (GenError.compileError
            { span := decl.stx.span
              message := "'" ++ ns ++ "' is not a known namespace" }))
    L

/-- Modelled from the spec: the closure tree built by
`TypeStage::from_limits(..).into_tree()` in `winrt_gen` is not part of this
source file.  It is modelled as the list of namespace nodes it contains plus
pruning bookkeeping: the namespaces deleted so far, and a log recording, for
each `reexport` call, the deleted set that call observed (§4.4: rewriting
must see the final deleted set). -/
structure Tree where
  nodes : List String
  removed : List String
  reexportLog : List (List String)
deriving DecidableEq, Repr

/-- Modelled from the spec: `tree.remove(namespace)` deletes the namespace
node in full and records it as removed (§4.4 step 1). -/
def Tree.remove (t : Tree) (ns : String) : Tree :=
  { t with
      nodes := t.nodes.filter (fun n => n != ns)
      removed := t.removed ++ [ns] }

/-- Modelled from the spec: `tree.reexport()` rewrites every remaining
reference to a removed type through the stable re-export root (§4.4 step 2);
the model records the deleted set the rewrite observed. -/
def Tree.reexport (t : Tree) : Tree :=
  { t with reexportLog := t.reexportLog ++ [t.removed] }

/-- The pruning step of `to_tokens_string` (lib.rs 150-156): when foundation
was not requested, remove every foundation namespace from the tree and then
reexport once; otherwise leave the tree untouched. -/
def pruneStep (foundation : Bool) (tree : Tree) : Tree :=
  if !foundation then
    (foundation_namespaces.foldl Tree.remove tree).reexport
  else tree

/-- `ImportMacro::to_tokens_string` (lib.rs 113-166), with the collaborating
`winrt_gen` pieces abstracted: `catalog` is the reader's namespace catalog
and `closureOf` is the ClosureBuilder, mapping the resolved limit set to the
namespace nodes of the closure tree.  The final token emission is reading the
pruned tree, so the pipeline returns that tree. -/
def to_tokens_string (foundation : Bool) (decls : List TypesDeclaration)
    (catalog : List String) (closureOf : List NamespaceTypes → List String) :
    Except GenError Tree := do
  let limits1 ← foundationPhase foundation (TypeLimits.new catalog)
  let limits2 ← userPhase decls limits1
  let tree : Tree := { nodes := closureOf limits2.limits, removed := [], reexportLog := [] }
  Except.ok (pruneStep foundation tree)

/-- Outcome of the `rustfmt` invocation in the generated build script
(`Command::output()`, lib.rs 88): either the process could not be spawned, or
it ran and exited (successfully or not, with an optional exit code and
captured standard error). -/
inductive FmtOutcome where
  | spawnError
  | exited (success : Bool) (code : Option Int) (stderr : String)
deriving DecidableEq, Repr

/-- Observable events of the generated build function, in program order. -/
inductive BuildEvent where
  | wroteFile (path : String) (contents : String)
  | ranRustfmt (path : String)
  | warned (message : String)
deriving DecidableEq, Repr

/-- Rust `{:?}` formatting of the `Option<i32>` exit code
(`o.status.code()`). -/
def formatCode : Option Int → String
  | Option.some c => "Some(" ++ toString c ++ ")"
  | none => "None"

/-- The generated `build` function body (lib.rs 75-97): write the generated
tokens to `$OUT_DIR/winrt.rs` in full, then run `rustfmt` on that path; a
spawn failure or an unsuccessful exit only prints a warning.  The model
returns the emitted event trace, the final contents of the output file
(rustfmt rewrites it in place on success, via `formatted`), and whether the
function completed normally. -/
def runGeneratedBuild (outDir : String) (tokens : String) (fmt : FmtOutcome)
    (formatted : String → String) :
    List BuildEvent × Option String × Bool :=
  let path := outDir ++ "/winrt.rs"
  match fmt with
  | FmtOutcome.spawnError =>
      ([BuildEvent.wroteFile path tokens, BuildEvent.ranRustfmt path,
        BuildEvent.warned "Could not execute rustfmt"],
        Option.some tokens, true)
  | FmtOutcome.exited false code stderr =>
      ([BuildEvent.wroteFile path tokens, BuildEvent.ranRustfmt path,
        BuildEvent.warned
          ("rustfmt did not exit properly: " ++ formatCode code ++ "\n" ++ stderr)],
        Option.some tokens, true)
  | FmtOutcome.exited true _ _ =>
      ([BuildEvent.wroteFile path tokens, BuildEvent.ranRustfmt path],
        Option.some (formatted tokens), true)

/-! ## Theorems -/

theorem char_toNat_ofNat (n : Nat) (h : n.isValidChar) : (Char.ofNat n).toNat = n := by
  unfold Char.ofNat
  rw [dif_pos h]
  rfl

theorem rustCharToLower_idem (c : Char) :
    rustCharToLower (rustCharToLower c) = rustCharToLower c := by
  unfold rustCharToLower Char.toLower
  by_cases h : c.toNat ≥ 65 ∧ c.toNat ≤ 90
  · rw [if_pos h]
    have hv : (c.toNat + 32).isValidChar := by left; omega
    rw [char_toNat_ofNat _ hv]
    rw [if_neg (by omega)]
  · rw [if_neg h, if_neg h]

theorem rustCharToLower_ne_quote (c : Char) (h1 : c ≠ '"') : rustCharToLower c ≠ '"' := by
  unfold rustCharToLower Char.toLower
  show (if c.toNat ≥ 65 ∧ c.toNat ≤ 90 then Char.ofNat (c.toNat + 32) else c) ≠ _
  by_cases h : c.toNat ≥ 65 ∧ c.toNat ≤ 90
  · rw [if_pos h]
    intro heq
    have h2 := congrArg Char.toNat heq
    rw [char_toNat_ofNat _ (by left; omega)] at h2
    have h3 : ('"' : Char).toNat = 34 := by decide
    rw [h3] at h2
    omega
  · rw [if_neg h]; exact h1

theorem rustCharToLower_ne_underscore (c : Char) (h1 : c ≠ '_') : rustCharToLower c ≠ '_' := by
  unfold rustCharToLower Char.toLower
  show (if c.toNat ≥ 65 ∧ c.toNat ≤ 90 then Char.ofNat (c.toNat + 32) else c) ≠ _
  by_cases h : c.toNat ≥ 65 ∧ c.toNat ≤ 90
  · rw [if_pos h]
    intro heq
    have h2 := congrArg Char.toNat heq
    rw [char_toNat_ofNat _ (by left; omega)] at h2
    have h3 : ('_' : Char).toNat = 95 := by decide
    rw [h3] at h2
    omega
  · rw [if_neg h]; exact h1

theorem roughKeep_iff (c : Char) : roughKeep c = true ↔ c ≠ '"' ∧ c ≠ '_' := by
  unfold roughKeep
  simp

theorem rough_foldl_acc (l : List Char) (acc : String) :
    l.foldl
      (fun result c =>
        if c != '"' && c != '_' then result.push (rustCharToLower c) else result)
      acc
      = String.mk (acc.data ++ (l.filter roughKeep).map rustCharToLower) := by
  induction l generalizing acc with
  | nil =>
    rw [List.filter_nil, List.map_nil, List.append_nil]
    rfl
  | cons c l ih =>
    cases h : roughKeep c with
    | true =>
      have h' : (c != '"' && c != '_') = true := h
      rw [List.foldl_cons, if_pos h', List.filter_cons_of_pos h, List.map_cons,
        ih (acc.push (rustCharToLower c)),
        show (acc.push (rustCharToLower c)).data = acc.data ++ [rustCharToLower c] from rfl,
        List.append_assoc]
      rfl
    | false =>
      have h' : (c != '"' && c != '_') = false := h
      rw [List.foldl_cons, if_neg (by rw [h']; exact Bool.false_ne_true),
        List.filter_cons_of_neg (by rw [h]; exact Bool.false_ne_true)]
      exact ih acc

/-- The rough namespace key, computed as filter-then-map in one pass. -/
theorem rough_namespace_eq_filter_map (ns : String) :
    namespace_literal_to_rough_namespace ns =
      String.mk ((ns.data.filter roughKeep).map rustCharToLower) := by
  unfold namespace_literal_to_rough_namespace
  rw [rough_foldl_acc]
  rfl

/-- C9: for every namespace string, the rough namespace key equals the input
with every `"` and `_` removed and every remaining character lowercased, and
nothing else. -/
theorem c9_rough_namespace_is_filter_then_lowercase (ns : String) :
    namespace_literal_to_rough_namespace ns =
      String.mk ((ns.data.filter roughKeep).map rustCharToLower) :=
  rough_namespace_eq_filter_map ns

theorem roughKeep_of_lower (c : Char) (h : roughKeep c = true) :
    roughKeep (rustCharToLower c) = true := by
  rw [roughKeep_iff] at h ⊢
  exact ⟨rustCharToLower_ne_quote c h.1, rustCharToLower_ne_underscore c h.2⟩

/-- C10: the rough-namespace computation is idempotent. -/
theorem c10_rough_namespace_idempotent (ns : String) :
    namespace_literal_to_rough_namespace (namespace_literal_to_rough_namespace ns) =
      namespace_literal_to_rough_namespace ns := by
  rw [rough_namespace_eq_filter_map ns, rough_namespace_eq_filter_map]
  show String.mk ((((ns.data.filter roughKeep).map rustCharToLower).filter roughKeep).map
    rustCharToLower) = _
  congr 1
  induction ns.data with
  | nil => rfl
  | cons c l ih =>
    by_cases h : roughKeep c = true
    · rw [List.filter_cons_of_pos h, List.map_cons,
        List.filter_cons_of_pos (roughKeep_of_lower c h), List.map_cons,
        rustCharToLower_idem, ih]
    · rw [List.filter_cons_of_neg h, ih]

theorem string_append_data (s t : String) : (s ++ t).data = s.data ++ t.data := rfl

theorem string_data_ext (s t : String) (h : s.data = t.data) : s = t := by
  cases s; cases t; cases h; rfl

theorem string_append_assoc (a b c : String) : a ++ b ++ c = a ++ (b ++ c) :=
  congrArg String.mk (List.append_assoc a.data b.data c.data)

theorem isEmpty_false_of_data_ne (s : String) (h : s.data ≠ []) :
    s.isEmpty = false := by
  cases he : s.isEmpty with
  | false => rfl
  | true =>
    rw [String.isEmpty_iff] at he
    exact absurd (congrArg String.data he) h

theorem dotAppend_of_not_empty (current ident : String) (h : current.isEmpty = false) :
    dotAppend current ident = current ++ "." ++ ident := by
  unfold dotAppend
  rw [if_neg (by rw [h]; exact Bool.false_ne_true)]

theorem recurse_mkUseTreePath (segments : List (Nat × String)) (tail : UseTree)
    (current : String) :
    recurse (mkUseTreePath segments tail) current =
      recurse tail (segments.foldl (fun cur s => dotAppend cur s.2) current) := by
  induction segments generalizing current with
  | nil => rfl
  | cons s rest ih =>
    cases s with
    | mk sp ident =>
      show recurse (mkUseTreePath rest tail) _ = _
      rw [ih]
      rfl

theorem joinDots_cons_cons (s t : String) (r : List String) :
    joinDots (s :: t :: r) = s ++ "." ++ joinDots (t :: r) := rfl

theorem foldl_dotAppend_ne_empty (idents : List (Nat × String)) :
    ∀ current : String, current.isEmpty = false → idents ≠ [] →
    idents.foldl (fun cur s => dotAppend cur s.2) current =
      current ++ "." ++ joinDots (idents.map Prod.snd) := by
  induction idents with
  | nil => exact fun _ _ hne => absurd rfl hne
  | cons s rest ih =>
    intro current hcur _
    show rest.foldl _ (dotAppend current s.2) = _
    rw [dotAppend_of_not_empty current s.2 hcur]
    cases rest with
    | nil => rfl
    | cons t r2 =>
      have hne2 : (current ++ "." ++ s.2).isEmpty = false := by
        apply isEmpty_false_of_data_ne
        show (current.data ++ ".".data) ++ s.2.data ≠ []
        simp
      rw [ih (current ++ "." ++ s.2) hne2 (List.cons_ne_nil t r2)]
      simp only [List.map_cons]
      rw [joinDots_cons_cons]
      apply string_data_ext
      simp only [string_append_data, List.append_assoc]

theorem foldl_dotAppend_from_empty (idents : List (Nat × String))
    (h : ∀ i ∈ idents, i.2.isEmpty = false) :
    idents.foldl (fun cur s => dotAppend cur s.2) "" =
      joinDots (idents.map Prod.snd) := by
  cases idents with
  | nil => rfl
  | cons s rest =>
    show rest.foldl _ (dotAppend "" s.2) = _
    have h0 : dotAppend "" s.2 = s.2 := rfl
    rw [h0]
    have hs : s.2.isEmpty = false := h s (List.mem_cons_self s rest)
    cases rest with
    | nil => rfl
    | cons t r2 =>
      rw [foldl_dotAppend_ne_empty (t :: r2) s.2 hs (List.cons_ne_nil t r2)]
      simp only [List.map_cons]
      rw [joinDots_cons_cons]

theorem check_passes (name : String) (span : Nat)
    (h : (rustStrToLower name == name) = false) :
    check_for_module_instead_of_type name span = Except.ok () := by
  unfold check_for_module_instead_of_type
  rw [if_neg (by rw [h]; exact Bool.false_ne_true)]

theorem check_fails (name : String) (span : Nat)
    (h : (rustStrToLower name == name) = true) :
    check_for_module_instead_of_type name span =
      Except.error
        { span := span
          message := "Expected `*` or type name, but found what appears to be a module" } := by
  unfold check_for_module_instead_of_type
  rw [if_pos h]

theorem mapM_parseGroupItem_names (members : List (Nat × String))
    (h : ∀ m ∈ members, (rustStrToLower m.2 == m.2) = false) :
    (members.map fun m => UseTree.name m.1 m.2).mapM parseGroupItem =
      Except.ok (members.map Prod.snd) := by
  induction members with
  | nil => rfl
  | cons m rest ih =>
    have hc := check_passes m.2 m.1 (h m (List.mem_cons_self m rest))
    have ih' := ih fun x hx => h x (List.mem_cons_of_mem _ hx)
    simp only [List.map_cons, List.mapM_cons, parseGroupItem, hc, ih']
    rfl

/-- C1: a parsed selection declaration accumulates namespace segments
left-to-right joined by dots (then roughened); a wildcard terminator yields
limit `all` for the namespace built so far; a brace-group terminator yields
limit `some` with exactly one entry per group member in group order; a bare
trailing identifier yields limit `some` with that single entry. -/
theorem c1_selector_shapes (segments : List (Nat × String))
    (hseg : ∀ i ∈ segments, i.2.isEmpty = false) :
    (∀ sp : Nat,
        use_tree_to_namespace_types (mkUseTreePath segments (UseTree.glob sp)) =
          Except.ok
            { «namespace» :=
                namespace_literal_to_rough_namespace (joinDots (segments.map Prod.snd))
              limit := TypeLimit.all })
    ∧ (∀ (sp : Nat) (members : List (Nat × String)),
        (∀ m ∈ members, (rustStrToLower m.2 == m.2) = false) →
        use_tree_to_namespace_types
            (mkUseTreePath segments
              (UseTree.group sp (members.map fun m => UseTree.name m.1 m.2))) =
          Except.ok
            { «namespace» :=
                namespace_literal_to_rough_namespace (joinDots (segments.map Prod.snd))
              limit := TypeLimit.some (members.map Prod.snd) })
    ∧ (∀ (sp : Nat) (ident : String),
        (rustStrToLower ident == ident) = false →
        use_tree_to_namespace_types (mkUseTreePath segments (UseTree.name sp ident)) =
          Except.ok
            { «namespace» :=
                namespace_literal_to_rough_namespace (joinDots (segments.map Prod.snd))
              limit := TypeLimit.some [ident] }) := by
  refine ⟨fun sp => ?_, fun sp members hm => ?_, fun sp ident hi => ?_⟩
  · unfold use_tree_to_namespace_types
    rw [recurse_mkUseTreePath, foldl_dotAppend_from_empty segments hseg]
    rfl
  · unfold use_tree_to_namespace_types
    rw [recurse_mkUseTreePath, foldl_dotAppend_from_empty segments hseg]
    simp only [recurse, mapM_parseGroupItem_names members hm]
    rfl
  · unfold use_tree_to_namespace_types
    rw [recurse_mkUseTreePath, foldl_dotAppend_from_empty segments hseg]
    simp only [recurse, check_passes ident sp hi]
    rfl

theorem c1_selector_shapes_witness :
    use_tree_to_namespace_types
        (mkUseTreePath [(0, "Windows"), (1, "Foundation")] (UseTree.glob 2)) =
      Except.ok { «namespace» := "windows.foundation", limit := TypeLimit.all }
    ∧ use_tree_to_namespace_types
        (mkUseTreePath [(0, "Windows"), (1, "Foundation")]
          (UseTree.group 2 [UseTree.name 3 "Uri", UseTree.name 4 "PropertyValue"])) =
      Except.ok
        { «namespace» := "windows.foundation"
          limit := TypeLimit.some ["Uri", "PropertyValue"] } := by
  constructor
  · exact ((c1_selector_shapes [(0, "Windows"), (1, "Foundation")] (by decide)).1 2).trans
      (by rfl)
  · exact (((c1_selector_shapes [(0, "Windows"), (1, "Foundation")] (by decide)).2.1 2
      [(3, "Uri"), (4, "PropertyValue")] (by decide)).trans (by rfl))

/-- C5: a leaf or group-member identifier is rejected with the
module-instead-of-type error exactly when it equals its own lowercasing, the
error being anchored to the identifier's span; in particular `a.b.x` with
lowercase leaf `x` is a parse error. -/
theorem c5_module_heuristic :
    (∀ (name : String) (span : Nat),
        check_for_module_instead_of_type name span =
            Except.error
              { span := span
                message :=
                  "Expected `*` or type name, but found what appears to be a module" } ↔
          rustStrToLower name = name)
    ∧ use_tree_to_namespace_types
          (mkUseTreePath [(0, "a"), (1, "b")] (UseTree.name 2 "x")) =
        Except.error
          { span := 2
            message := "Expected `*` or type name, but found what appears to be a module" } := by
  constructor
  · intro name span
    constructor
    · intro h
      cases hb : (rustStrToLower name == name) with
      | true => exact eq_of_beq hb
      | false =>
        rw [check_passes name span hb] at h
        exact absurd h (by intro hc; cases hc)
    · intro h
      exact check_fails name span (beq_iff_eq.mpr h)
  · rfl

/-- C2: dependency resolution against the NuGet root is a trichotomy: if no
subdirectory name starts with the dependency name it fails with a
missing-dependency error naming the dependency; if two or more do it fails
with the multiple-versions error; if exactly one does it succeeds with the
recursive expansion of that directory. -/
theorem c2_dependency_resolution_trichotomy (root : List FsEntry) (name : String) :
    (matchesOf root name = [] →
      resolveDependency root name =
        Except.error ("No directory for dependency '" ++ name ++ "'"))
    ∧ (∀ d : FsEntry, matchesOf root name = [d] →
      resolveDependency root name = Except.ok (expand_paths d nuget_root))
    ∧ (2 ≤ (matchesOf root name).length →
      resolveDependency root name =
        Except.error ("multiple nuget package versions found for '" ++ name ++ "'")) := by
  refine ⟨fun h => ?_, fun d h => ?_, fun h => ?_⟩
  · unfold resolveDependency
    rw [h]
  · unfold resolveDependency
    rw [h]
  · unfold resolveDependency
    cases hm : matchesOf root name with
    | nil => rw [hm] at h; simp at h
    | cons a tail =>
      cases tail with
      | nil => rw [hm] at h; simp at h
      | cons b rest => rfl

theorem c2_dependency_resolution_trichotomy_witness :
    resolveDependency
        [FsEntry.dir "Foo.Bar.1.2.3" [FsEntry.file "a.winmd"]] "Foo.Bar" =
      Except.ok
        (expand_paths (FsEntry.dir "Foo.Bar.1.2.3" [FsEntry.file "a.winmd"]) nuget_root)
    ∧ resolveDependency [] "Foo.Bar" =
      Except.error "No directory for dependency 'Foo.Bar'"
    ∧ resolveDependency
        [FsEntry.dir "Foo.Bar.1.2.3" [], FsEntry.dir "Foo.Bar.2.0.0" []] "Foo.Bar" =
      Except.error "multiple nuget package versions found for 'Foo.Bar'" := by
  refine ⟨?_, ?_, ?_⟩
  · exact (c2_dependency_resolution_trichotomy
      [FsEntry.dir "Foo.Bar.1.2.3" [FsEntry.file "a.winmd"]] "Foo.Bar").2.1
      (FsEntry.dir "Foo.Bar.1.2.3" [FsEntry.file "a.winmd"]) (by rfl)
  · exact ((c2_dependency_resolution_trichotomy [] "Foo.Bar").1 (by rfl)).trans (by rfl)
  · exact ((c2_dependency_resolution_trichotomy
      [FsEntry.dir "Foo.Bar.1.2.3" [], FsEntry.dir "Foo.Bar.2.0.0" []] "Foo.Bar").2.2
      (by rfl)).trans (by rfl)

theorem string_compare_eq_iff (x y : String) : compare x y = Ordering.eq ↔ x = y :=
  Batteries.BEqCmp.cmp_iff_eq

theorem cmpStrings_eq_iff (xs : List String) :
    ∀ ys : List String, cmpStrings xs ys = Ordering.eq ↔ xs = ys := by
  induction xs with
  | nil =>
    intro ys
    cases ys with
    | nil => simp [cmpStrings]
    | cons y ys => simp [cmpStrings]
  | cons x xs ih =>
    intro ys
    cases ys with
    | nil => simp [cmpStrings]
    | cons y ys =>
      show (match compare x y with
        | Ordering.eq => cmpStrings xs ys
        | o => o) = Ordering.eq ↔ _
      cases hc : compare x y with
      | eq =>
        have hxy : x = y := (string_compare_eq_iff x y).1 hc
        subst hxy
        rw [ih ys]
        simp
      | lt =>
        constructor
        · intro h; cases h
        · intro h
          have hx : x = y := (List.cons.injEq x xs y ys ▸ h).1
          subst hx
          have hbad := ((string_compare_eq_iff x x).2 rfl).symm.trans hc
          cases hbad
      | gt =>
        constructor
        · intro h; cases h
        · intro h
          have hx : x = y := (List.cons.injEq x xs y ys ▸ h).1
          subst hx
          have hbad := ((string_compare_eq_iff x x).2 rfl).symm.trans hc
          cases hbad

theorem typeLimit_cmp_eq_iff (a b : TypeLimit) :
    TypeLimit.cmp a b = Ordering.eq ↔ a = b := by
  cases a <;> cases b <;> simp [TypeLimit.cmp, cmpStrings_eq_iff]

theorem namespaceTypes_eq_iff (a b : NamespaceTypes) :
    a = b ↔ a.«namespace» = b.«namespace» ∧ a.limit = b.limit := by
  cases a; cases b; simp

theorem namespaceTypes_cmp_eq_iff (a b : NamespaceTypes) :
    NamespaceTypes.cmp a b = Ordering.eq ↔ a = b := by
  show (match compare a.«namespace» b.«namespace» with
    | Ordering.eq => TypeLimit.cmp a.limit b.limit
    | o => o) = Ordering.eq ↔ _
  cases hc : compare a.«namespace» b.«namespace» with
  | eq =>
    rw [typeLimit_cmp_eq_iff, namespaceTypes_eq_iff]
    have hns := (string_compare_eq_iff _ _).1 hc
    simp [hns]
  | lt =>
    constructor
    · intro h; cases h
    · intro h
      subst h
      have hbad := ((string_compare_eq_iff a.«namespace» a.«namespace»).2 rfl).symm.trans hc
      cases hbad
  | gt =>
    constructor
    · intro h; cases h
    · intro h
      subst h
      have hbad := ((string_compare_eq_iff a.«namespace» a.«namespace»).2 rfl).symm.trans hc
      cases hbad

/-- C6 as stated is false on the code: two parsed selectors with the same
namespace but different type limits do not compare equal and do not merge in
the selector set. -/
theorem c6_counterexample :
    TypesDeclaration.eqb
        { types := { «namespace» := "a", limit := TypeLimit.all }, stx := UseTree.glob 0 }
        { types := { «namespace» := "a", limit := TypeLimit.some ["X"] }
          stx := UseTree.name 1 "X" } = false
    ∧ (btreeInsert TypesDeclaration.cmp
        (btreeInsert TypesDeclaration.cmp []
          { types := { «namespace» := "a", limit := TypeLimit.all }, stx := UseTree.glob 0 })
        { types := { «namespace» := "a", limit := TypeLimit.some ["X"] }
          stx := UseTree.name 1 "X" }).length = 2 :=
  ⟨rfl, rfl⟩

/-- C6 (amended): selector identity is the full `NamespaceTypes` value, not
the namespace alone: `TypesDeclaration` equality and ordering delegate to the
`types` field (ignoring the stored syntax), and two selectors are
equal — and merge in the set — exactly when their namespace AND their type
limit both agree. -/
theorem c6_selector_identity_is_namespace_and_limit (a b : TypesDeclaration) :
    (TypesDeclaration.eqb a b = true ↔
      a.types.«namespace» = b.types.«namespace» ∧ a.types.limit = b.types.limit)
    ∧ (TypesDeclaration.cmp a b = Ordering.eq ↔
      a.types.«namespace» = b.types.«namespace» ∧ a.types.limit = b.types.limit) := by
  constructor
  · unfold TypesDeclaration.eqb
    rw [beq_iff_eq, namespaceTypes_eq_iff]
  · unfold TypesDeclaration.cmp
    rw [namespaceTypes_cmp_eq_iff, namespaceTypes_eq_iff]

theorem nodes_foldl_remove_subset (nss : List String) :
    ∀ (t : Tree) (x : String), x ∈ (nss.foldl Tree.remove t).nodes → x ∈ t.nodes := by
  induction nss with
  | nil => exact fun t x h => h
  | cons ns rest ih =>
    intro t x h
    have h2 := ih (t.remove ns) x h
    exact (List.mem_filter.mp h2).1

theorem not_mem_nodes_foldl_remove (nss : List String) :
    ∀ (t : Tree) (ns : String), ns ∈ nss → ns ∉ (nss.foldl Tree.remove t).nodes := by
  induction nss with
  | nil => intro t ns h; cases h
  | cons m rest ih =>
    intro t ns h hmem
    rcases List.mem_cons.mp h with h1 | h1
    · subst h1
      have h2 := nodes_foldl_remove_subset rest (t.remove ns) ns hmem
      have h3 := (List.mem_filter.mp h2).2
      simp at h3
    · exact ih (t.remove m) ns h1 hmem

theorem removed_foldl_remove (nss : List String) :
    ∀ t : Tree, (nss.foldl Tree.remove t).removed = t.removed ++ nss := by
  induction nss with
  | nil => intro t; rw [List.append_nil]; rfl
  | cons m rest ih =>
    intro t
    rw [List.foldl_cons, ih (t.remove m)]
    show (t.removed ++ [m]) ++ rest = _
    rw [List.append_assoc]
    rfl

theorem reexportLog_foldl_remove (nss : List String) :
    ∀ t : Tree, (nss.foldl Tree.remove t).reexportLog = t.reexportLog := by
  induction nss with
  | nil => exact fun _ => rfl
  | cons m rest ih => exact fun t => ih (t.remove m)

/-- C3: with foundation opted out, the pruning step removes every foundation
namespace from the tree and then calls reexport exactly once, and that single
reexport observes the full, final deleted set (all four foundation
namespaces); with foundation opted in, the pruning step is the identity. -/
theorem c3_two_pass_pruning (t : Tree)
    (h1 : t.removed = []) (h2 : t.reexportLog = []) :
    ((pruneStep false t).reexportLog = [foundation_namespaces]
      ∧ (pruneStep false t).removed = foundation_namespaces
      ∧ ∀ ns ∈ foundation_namespaces, ns ∉ (pruneStep false t).nodes)
    ∧ pruneStep true t = t := by
  constructor
  · refine ⟨?_, ?_, ?_⟩
    · show (foundation_namespaces.foldl Tree.remove t).reexportLog ++
        [(foundation_namespaces.foldl Tree.remove t).removed] = _
      rw [reexportLog_foldl_remove, removed_foldl_remove, h1, h2]
      rfl
    · show (foundation_namespaces.foldl Tree.remove t).removed = _
      rw [removed_foldl_remove, h1]
      rfl
    · intro ns hns
      show ns ∉ (foundation_namespaces.foldl Tree.remove t).nodes
      exact not_mem_nodes_foldl_remove foundation_namespaces t ns hns
  · rfl

theorem c3_two_pass_pruning_witness :
    (pruneStep false
        { nodes := ["Windows.Foundation", "My.Ns"], removed := [], reexportLog := [] }).reexportLog
      = [foundation_namespaces]
    ∧ pruneStep true
        { nodes := ["Windows.Foundation", "My.Ns"], removed := [], reexportLog := [] }
      = { nodes := ["Windows.Foundation", "My.Ns"], removed := [], reexportLog := [] } :=
  ⟨(c3_two_pass_pruning _ rfl rfl).1.1, (c3_two_pass_pruning _ rfl rfl).2⟩

theorem insert_err_of_unknown (L : TypeLimits) (nt : NamespaceTypes)
    (h : knownNamespace L.catalog nt.«namespace» = false) :
    L.insert nt = Except.error nt.«namespace» := by
  unfold knownNamespace at h
  unfold TypeLimits.insert
  cases hf : L.catalog.find? (fun c => rustStrToLower c == rustStrToLower nt.«namespace») with
  | none => rfl
  | some c => rw [hf] at h; cases h

theorem insert_preserves (L : TypeLimits) (nt : NamespaceTypes)
    (h : knownNamespace L.catalog nt.«namespace» = true) :
    ∃ L2, L.insert nt = Except.ok L2 ∧ L2.catalog = L.catalog := by
  unfold knownNamespace at h
  unfold TypeLimits.insert
  cases hf : L.catalog.find? (fun c => rustStrToLower c == rustStrToLower nt.«namespace») with
  | none => rw [hf] at h; cases h
  | some c =>
    exact ⟨{ L with limits := L.limits ++ [{ nt with «namespace» := c }] }, rfl, rfl⟩

theorem foundationFold_ok (nss : List String) :
    ∀ L : TypeLimits, (∀ ns ∈ nss, knownNamespace L.catalog ns = true) →
    ∃ L2,
      nss.foldlM
        (fun acc ns =>
          match acc.insert { «namespace» := ns, limit := TypeLimit.all } with
          | Except.ok x => Except.ok x
          | Except.error _ => Except.error GenError.panic)
        L = Except.ok L2
      ∧ L2.catalog = L.catalog := by
  induction nss with
  | nil => exact fun L _ => ⟨L, rfl, rfl⟩
  | cons ns rest ih =>
    intro L hk
    obtain ⟨X, hX, hXc⟩ :=
      insert_preserves L { «namespace» := ns, limit := TypeLimit.all }
        (hk ns (List.mem_cons_self ns rest))
    obtain ⟨L2, h2, h2c⟩ := ih X (by
      rw [hXc]
      exact fun m hm => hk m (List.mem_cons_of_mem _ hm))
    refine ⟨L2, ?_, h2c.trans hXc⟩
    rw [List.foldlM_cons, hX]
    exact h2

theorem foundationPhase_ok (foundation : Bool) (cat : List String)
    (hf : foundation = true → ∀ ns ∈ foundation_namespaces, knownNamespace cat ns = true) :
    ∃ L1, foundationPhase foundation (TypeLimits.new cat) = Except.ok L1
      ∧ L1.catalog = cat := by
  cases foundation with
  | false => exact ⟨TypeLimits.new cat, rfl, rfl⟩
  | true =>
    obtain ⟨L2, h, hc⟩ := foundationFold_ok foundation_namespaces (TypeLimits.new cat) (hf rfl)
    exact ⟨L2, h, hc⟩

theorem userPhase_first_unknown (cat : List String) (d : TypesDeclaration)
    (post : List TypesDeclaration)
    (hd : knownNamespace cat d.types.«namespace» = false) :
    ∀ (pre : List TypesDeclaration) (L : TypeLimits), L.catalog = cat →
    (∀ p ∈ pre, knownNamespace cat p.types.«namespace» = true) →
    userPhase (pre ++ d :: post) L =
      Except.error (GenError.compileError
        { span := d.stx.span
          message := "'" ++ d.types.«namespace» ++ "' is not a known namespace" }) := by
  intro pre
  induction pre with
  | nil =>
    intro L hL _
    have he : L.insert d.types = Except.error d.types.«namespace» :=
      insert_err_of_unknown L d.types (by rw [hL]; exact hd)
    show userPhase (d :: post) L = _
    unfold userPhase
    rw [List.foldlM_cons, he]
    rfl
  | cons p rest ih =>
    intro L hL hpre
    obtain ⟨L2, hok, hcat⟩ :=
      insert_preserves L p.types (by rw [hL]; exact hpre p (List.mem_cons_self p rest))
    show userPhase (p :: (rest ++ d :: post)) L = _
    unfold userPhase
    rw [List.foldlM_cons, hok]
    exact ih L2 (hcat.trans hL) fun x hx => hpre x (List.mem_cons_of_mem _ hx)

/-- C4: a user-declared selector whose namespace is unknown to the type
universe catalog makes generation fail before any tree construction or
emission, with a compile error that names the offending namespace and is
anchored to the span of that selector's original syntax. -/
theorem c4_unknown_namespace_is_spanned_error (foundation : Bool)
    (cat : List String) (closureOf : List NamespaceTypes → List String)
    (pre : List TypesDeclaration) (d : TypesDeclaration) (post : List TypesDeclaration)
    (hf : foundation = true → ∀ ns ∈ foundation_namespaces, knownNamespace cat ns = true)
    (hpre : ∀ p ∈ pre, knownNamespace cat p.types.«namespace» = true)
    (hd : knownNamespace cat d.types.«namespace» = false) :
    to_tokens_string foundation (pre ++ d :: post) cat closureOf =
      Except.error (GenError.compileError
        { span := d.stx.span
          message := "'" ++ d.types.«namespace» ++ "' is not a known namespace" }) := by
  obtain ⟨L1, hL1, hcat⟩ := foundationPhase_ok foundation cat hf
  unfold to_tokens_string
  rw [hL1]
  show (userPhase (pre ++ d :: post) L1 >>= _) = _
  rw [userPhase_first_unknown cat d post hd pre L1 hcat hpre]
  rfl

theorem c4_unknown_namespace_witness :
    to_tokens_string false
        [{ types := { «namespace» := "no.such.ns", limit := TypeLimit.all }
           stx := UseTree.glob 7 }]
        ["Windows.Foundation"] (fun l => l.map NamespaceTypes.«namespace») =
      Except.error (GenError.compileError
        { span := 7, message := "'no.such.ns' is not a known namespace" }) :=
  c4_unknown_namespace_is_spanned_error false ["Windows.Foundation"]
    (fun l => l.map NamespaceTypes.«namespace») []
    { types := { «namespace» := "no.such.ns", limit := TypeLimit.all }
      stx := UseTree.glob 7 }
    [] (fun hc => by cases hc) (fun p hp => by cases hp) (by rfl)

theorem except_bind_ok_eq_map {γ α β : Type} (x : Except γ α) (f : α → β) :
    (x >>= fun a => Except.ok (f a)) = Except.map f x := by
  cases x <;> rfl

theorem foldl_insert_all_exact (nss : List String) :
    ∀ L : TypeLimits,
    (∀ ns ∈ nss,
        L.catalog.find? (fun c => rustStrToLower c == rustStrToLower ns) = Option.some ns) →
    nss.foldlM
        (fun acc ns =>
          match acc.insert { «namespace» := ns, limit := TypeLimit.all } with
          | Except.ok x => Except.ok x
          | Except.error _ => Except.error GenError.panic)
        L
      = Except.ok
          { catalog := L.catalog
            limits := L.limits ++
              nss.map (fun ns => { «namespace» := ns, limit := TypeLimit.all }) } := by
  induction nss with
  | nil =>
    intro L _
    rw [List.map_nil, List.append_nil]
    rfl
  | cons ns rest ih =>
    intro L hk
    have hins : L.insert { «namespace» := ns, limit := TypeLimit.all } =
        Except.ok
          { catalog := L.catalog
            limits := L.limits ++ [{ «namespace» := ns, limit := TypeLimit.all }] } := by
      unfold TypeLimits.insert
      rw [hk ns (List.mem_cons_self ns rest)]
    rw [List.foldlM_cons, hins]
    have h2 := ih
      { catalog := L.catalog
        limits := L.limits ++ [{ «namespace» := ns, limit := TypeLimit.all }] }
      (fun m hm => hk m (List.mem_cons_of_mem _ hm))
    refine Eq.trans h2 ?_
    rw [List.map_cons, List.append_assoc]
    rfl

/-- C7: with foundation opted in, exactly the four foundation namespaces are
inserted into the working limit set, each with limit `All`, through the same
`TypeLimits.insert` path the user phase uses, and the pipeline then runs the
user phase from that pre-populated set (foundation before users, before
closure computation); with foundation opted out nothing is pre-inserted. -/
theorem c7_foundation_injection (cat : List String)
    (decls : List TypesDeclaration) (closureOf : List NamespaceTypes → List String)
    (hf : ∀ ns ∈ foundation_namespaces,
        cat.find? (fun c => rustStrToLower c == rustStrToLower ns) = Option.some ns) :
    foundationPhase true (TypeLimits.new cat) =
        Except.ok
          { catalog := cat
            limits := foundation_namespaces.map
              (fun ns => { «namespace» := ns, limit := TypeLimit.all }) }
    ∧ to_tokens_string true decls cat closureOf =
        Except.map
          (fun L2 => pruneStep true
            { nodes := closureOf L2.limits, removed := [], reexportLog := [] })
          (userPhase decls
            { catalog := cat
              limits := foundation_namespaces.map
                (fun ns => { «namespace» := ns, limit := TypeLimit.all }) })
    ∧ foundationPhase false (TypeLimits.new cat) = Except.ok (TypeLimits.new cat) := by
  have h1 : foundationPhase true (TypeLimits.new cat) =
      Except.ok
        { catalog := cat
          limits := foundation_namespaces.map
            (fun ns => { «namespace» := ns, limit := TypeLimit.all }) } :=
    foldl_insert_all_exact foundation_namespaces (TypeLimits.new cat) hf
  refine ⟨h1, ?_, rfl⟩
  unfold to_tokens_string
  rw [h1]
  exact except_bind_ok_eq_map _ _

theorem c7_foundation_injection_witness :
    foundationPhase true (TypeLimits.new foundation_namespaces) =
      Except.ok
        { catalog := foundation_namespaces
          limits := foundation_namespaces.map
            (fun ns => { «namespace» := ns, limit := TypeLimit.all }) } :=
  (c7_foundation_injection foundation_namespaces [] (fun _ => []) (by decide)).1

/-- C8: the generated build function writes the generated file in full before
invoking rustfmt, and both formatter failure modes are non-fatal: a spawn
failure only warns "Could not execute rustfmt", an unsuccessful exit only
warns with the exit status and the captured standard error; in both cases the
already-written (unformatted) file is kept and the build function completes
normally. -/
theorem c8_formatter_failures_nonfatal (outDir tokens : String)
    (formatted : String → String) (fmt : FmtOutcome) :
    (runGeneratedBuild outDir tokens fmt formatted).2.2 = true
    ∧ (runGeneratedBuild outDir tokens fmt formatted).1.take 2 =
        [BuildEvent.wroteFile (outDir ++ "/winrt.rs") tokens,
          BuildEvent.ranRustfmt (outDir ++ "/winrt.rs")]
    ∧ (∀ e ∈ (runGeneratedBuild outDir tokens fmt formatted).1.drop 2,
        ∃ m, e = BuildEvent.warned m)
    ∧ (fmt = FmtOutcome.spawnError →
        (runGeneratedBuild outDir tokens fmt formatted).1.drop 2 =
          [BuildEvent.warned "Could not execute rustfmt"]
        ∧ (runGeneratedBuild outDir tokens fmt formatted).2.1 = Option.some tokens)
    ∧ (∀ (code : Option Int) (stderr : String),
        fmt = FmtOutcome.exited false code stderr →
        (runGeneratedBuild outDir tokens fmt formatted).1.drop 2 =
          [BuildEvent.warned
            ("rustfmt did not exit properly: " ++ formatCode code ++ "\n" ++ stderr)]
        ∧ (runGeneratedBuild outDir tokens fmt formatted).2.1 = Option.some tokens) := by
  cases fmt with
  | spawnError =>
    refine ⟨rfl, rfl, ?_, fun _ => ⟨rfl, rfl⟩, ?_⟩
    · intro e he
      have h2 : e = BuildEvent.warned "Could not execute rustfmt" := by
        rcases List.mem_singleton.mp he with h
        exact h
      exact ⟨_, h2⟩
    · intro code stderr h
      cases h
  | exited success code stderr =>
    cases success with
    | false =>
      refine ⟨rfl, rfl, ?_, ?_, ?_⟩
      · intro e he
        have h2 := List.mem_singleton.mp he
        exact ⟨_, h2⟩
      · intro h; cases h
      · intro c s h
        injection h with _ h1 h2
        subst h1
        subst h2
        exact ⟨rfl, rfl⟩
    | true =>
      refine ⟨rfl, rfl, ?_, ?_, ?_⟩
      · intro e he
        cases he
      · intro h; cases h
      · intro c s h
        injection h with hb _ _
        cases hb

theorem c8_formatter_failures_nonfatal_witness :
    (runGeneratedBuild "out" "generated code" FmtOutcome.spawnError id).1.drop 2 =
      [BuildEvent.warned "Could not execute rustfmt"]
    ∧ (runGeneratedBuild "out" "generated code" FmtOutcome.spawnError id).2.1 =
      Option.some "generated code" :=
  (c8_formatter_failures_nonfatal "out" "generated code" id
    FmtOutcome.spawnError).2.2.2.1 rfl

end WinrtMacros
